import Mathlib

/-!
# Memory-mapped I/O region (`periphery/mmio.py`): shallow embedding

The Python class `MMIO` maps a page-aligned window of `/dev/mem` into the
process and offers width-typed, bounds-checked reads and writes over it.
We embed the class as a Lean structure `Mmio` (Python identifiers are kept
for the fields and methods; the class name gains lowercase letters only).

Modelling conventions, each justified by the CPython semantics of the source:

* Python integers are unbounded, so `Int` stands for every Python `int`
  (offsets may be negative; the code never truncates).
* The mapped buffer is the byte content of the `mmap` object: a
  `List Nat` whose entries are the bytes (each `< 256` for buffers built by
  `_open` or by a successful write).  `mapping = none` is Python
  `self.mapping = None` (the closed state).
* Exceptions of the source are the constructors of `PyErr`; each
  constructor records one concrete `raise` site (or one failure mode of a
  CPython library call the source makes), see the comments on `PyErr`.
* `ctypes.c_uintN.from_buffer(buf, offset)` validates the offset against the
  buffer before any access: CPython raises `ValueError` when `offset < 0`
  ("offset cannot be negative") and when the buffer is smaller than
  `offset + sizeof(type)` ("Buffer size too small ...").  `fromBufferBytes`
  models this check followed by reading the raw bytes of the view.
* `c_uintN` values are native byte order; we fix the little-endian host the
  library targets (`valLE` / `bytesLE` convert between a value and its bytes).
* `os.sysconf(SC_PAGESIZE)` and the contents of physical memory are
  environment inputs, so `_open` takes the page size and the byte contents
  of `/dev/mem` as parameters; the `os.open`/`mmap`/`os.close` error paths
  (`MMIOError`) abort construction before any state exists and are outside
  the constructed-region claims.
* Every method is translated statement by statement into a state-passing
  function returning `Mmio × Except PyErr α`: a `raise` returns the state
  held at that program point (Python mutates `self.mapping`'s contents only
  in the final statement of a write, so every error leaves the state as it
  was on entry).
-/

/-- The exceptions the methods of the class can raise, one constructor per
raise site of the source or of a CPython call it makes:

* `offsetOutOfBounds` — `ValueError("Offset out of bounds.")` from
  `_validate_offset` (the spec's `OutOfBoundsError`);
* `valueOutOfBounds` — `ValueError("Value out of bounds.")` from
  `write8`/`write16`/`write32` (the spec's `RangeError`);
* `negativeOffset` — `ValueError("offset cannot be negative")` from
  `ctypes...from_buffer` with a negative offset;
* `bufferTooSmall` — `ValueError("Buffer size too small ...")` from
  `ctypes...from_buffer` when the buffer cannot hold the view;
* `noBuffer` — `TypeError` from `ctypes...from_buffer(None, ...)`, the
  access made after `close()` set `self.mapping = None`;
* `byteOutOfRange` — `ValueError("byte must be in range(0, 256)")` from
  `bytearray(data)` in `write`;
* `negativeLength` — `ValueError` from building the ctypes array type
  `(c_uint8 * length)` with a negative `length` in `read`. -/
inductive PyErr where
  | offsetOutOfBounds
  | valueOutOfBounds
  | negativeOffset
  | bufferTooSmall
  | noBuffer
  | byteOutOfRange
  | negativeLength
deriving DecidableEq, Repr

/-- State of one `MMIO` object: the four integer attributes set by `_open`
and the `mmap` object (`none` once closed).  Field names are the Python
attribute names. -/
structure Mmio where
  _physaddr : Int
  _size : Int
  _aligned_physaddr : Int
  _aligned_size : Int
  mapping : Option (List Nat)
deriving DecidableEq, Repr

/-- Little-endian bytes of a value, `n` bytes wide (the store performed by
assigning to `ctypes.c_uintN(...).value` on a little-endian host). -/
def bytesLE : Nat → Nat → List Nat
  | _, 0 => []
  | v, n + 1 => (v % 256) :: bytesLE (v / 256) n

/-- Value of a little-endian byte string (the read performed by
`ctypes.c_uintN.from_buffer(...).value` on a little-endian host). -/
def valLE : List Nat → Nat
  | [] => 0
  | b :: bs => b + 256 * valLE bs

/-- Overwrite `buf` starting at index `i` with the bytes `data`
(the byte-for-byte store into a ctypes view of the buffer). -/
def storeBytes : List Nat → Nat → List Nat → List Nat
  | buf, _, [] => buf
  | buf, i, b :: rest => storeBytes (buf.set i b) (i + 1) rest

/-- `ctypes` `from_buffer(buf, offset)` for a view of `n` bytes: CPython
rejects a negative offset and a buffer too small for the view, then the view
denotes the `n` bytes of `buf` starting at `offset`. -/
def fromBufferBytes (buf : List Nat) (offset : Int) (n : Nat) :
    Except PyErr (List Nat) :=
  if offset < 0 then .error .negativeOffset
  else if (buf.length : Int) < offset + n then .error .bufferTooSmall
  else .ok ((List.range n).map (fun j => buf.getD (offset.toNat + j) 0))

/-- `_open(physaddr, size)`, its pure content: the page size queried from the
OS and the bytes of `/dev/mem` are the parameters `pagesize` and `devmem`
(one byte per physical address).  The method stores `physaddr` and `size`,
computes the aligned base and size, and maps `aligned_size` bytes of
`/dev/mem` starting at `aligned_physaddr`. -/
def Mmio._open (physaddr size pagesize : Int) (devmem : Int → Nat) : Mmio :=
  let aligned_physaddr := physaddr - physaddr % pagesize
  let aligned_size := size + (physaddr - aligned_physaddr)
  { _physaddr := physaddr
    _size := size
    _aligned_physaddr := aligned_physaddr
    _aligned_size := aligned_size
    mapping := some ((List.range aligned_size.toNat).map
      (fun i => devmem (aligned_physaddr + (i : Int)) % 256)) }

/-- `_adjust_offset`: add `physaddr - aligned_physaddr` to a caller offset. -/
def Mmio._adjust_offset (m : Mmio) (offset : Int) : Int :=
  offset + (m._physaddr - m._aligned_physaddr)

/-- The spec's `offset_adjustment`, the quantity `_adjust_offset` adds. -/
def Mmio.offset_adjustment (m : Mmio) : Int :=
  m._physaddr - m._aligned_physaddr

/-- `_validate_offset`: raise `ValueError("Offset out of bounds.")` when
`offset + length > _aligned_size`. -/
def Mmio._validate_offset (m : Mmio) (offset length : Int) :
    Except PyErr Unit :=
  if m._aligned_size < offset + length then .error .offsetOutOfBounds
  else .ok ()

/-- The access `ctypes.c_uintN.from_buffer(self.mapping, offset).value` made
by each fixed-width read after validation: fails on a closed mapping
(`None`), otherwise reads `nbytes` bytes at `off` through `from_buffer`. -/
def Mmio.readAt (m : Mmio) (off : Int) (nbytes : Nat) :
    Mmio × Except PyErr Int :=
  match m.mapping with
  | none => (m, .error .noBuffer)
  | some buf =>
    match fromBufferBytes buf off nbytes with
    | .error e => (m, .error e)
    | .ok bs => (m, .ok (valLE bs : Int))

/-- Common body of `read8`/`read16`/`read32` (they differ only in the ctypes
type, hence in `nbytes`): adjust the offset, validate it for `nbytes`, then
read the view. -/
def Mmio.readFixed (m : Mmio) (offset : Int) (nbytes : Nat) :
    Mmio × Except PyErr Int :=
  let off := m._adjust_offset offset
  match m._validate_offset off (nbytes : Int) with
  | .error e => (m, .error e)
  | .ok _ => m.readAt off nbytes

/-- `read32(offset)`. -/
def Mmio.read32 (m : Mmio) (offset : Int) : Mmio × Except PyErr Int :=
  m.readFixed offset 4

/-- `read16(offset)`. -/
def Mmio.read16 (m : Mmio) (offset : Int) : Mmio × Except PyErr Int :=
  m.readFixed offset 2

/-- `read8(offset)`. -/
def Mmio.read8 (m : Mmio) (offset : Int) : Mmio × Except PyErr Int :=
  m.readFixed offset 1

/-- `read(offset, length)`: adjust, validate for `length` bytes, build the
ctypes array type `(c_uint8 * length)` (CPython rejects a negative length
there), take its view of the mapping and copy it out as bytes. -/
def Mmio.read (m : Mmio) (offset length : Int) :
    Mmio × Except PyErr (List Nat) :=
  let off := m._adjust_offset offset
  match m._validate_offset off length with
  | .error e => (m, .error e)
  | .ok _ =>
    if length < 0 then (m, .error .negativeLength)
    else
      match m.mapping with
      | none => (m, .error .noBuffer)
      | some buf =>
        match fromBufferBytes buf off length.toNat with
        | .error e => (m, .error e)
        | .ok bs => (m, .ok bs)

/-- The store `ctypes view of data.length bytes at off := data`: fails on a
closed mapping, checks the view through `from_buffer`, then overwrites the
bytes.  Used by the fixed-width writes and by `write`. -/
def Mmio.writeAt (m : Mmio) (off : Int) (data : List Nat) :
    Mmio × Except PyErr Unit :=
  match m.mapping with
  | none => (m, .error .noBuffer)
  | some buf =>
    match fromBufferBytes buf off data.length with
    | .error e => (m, .error e)
    | .ok _ => ({ m with mapping := some (storeBytes buf off.toNat data) },
                .ok ())

/-- Common body of `write8`/`write16`/`write32` (they differ only in the
ctypes type and the bound of the value check): raise
`ValueError("Value out of bounds.")` unless `0 ≤ value ≤ maxval`, then
adjust the offset, validate it for `nbytes`, then store the `nbytes`
little-endian bytes of `value`. -/
def Mmio.writeFixed (m : Mmio) (offset value : Int) (nbytes : Nat)
    (maxval : Int) : Mmio × Except PyErr Unit :=
  if value < 0 ∨ maxval < value then (m, .error .valueOutOfBounds)
  else
    let off := m._adjust_offset offset
    match m._validate_offset off (nbytes : Int) with
    | .error e => (m, .error e)
    | .ok _ => m.writeAt off (bytesLE value.toNat nbytes)

/-- `write32(offset, value)` (value bound `0xffffffff`). -/
def Mmio.write32 (m : Mmio) (offset value : Int) : Mmio × Except PyErr Unit :=
  m.writeFixed offset value 4 0xffffffff

/-- `write16(offset, value)` (value bound `0xffff`). -/
def Mmio.write16 (m : Mmio) (offset value : Int) : Mmio × Except PyErr Unit :=
  m.writeFixed offset value 2 0xffff

/-- `write8(offset, value)` (value bound `0xff`). -/
def Mmio.write8 (m : Mmio) (offset value : Int) : Mmio × Except PyErr Unit :=
  m.writeFixed offset value 1 0xff

/-- `write(offset, data)`: adjust, validate for `len(data)` bytes, convert
`data` with `bytearray` (CPython rejects an entry `≥ 256` there; entries are
naturals in the model), then copy the bytes into a view of the mapping.
`data` as `List Nat` covers `bytes`, `bytearray` and lists of naturals. -/
def Mmio.write (m : Mmio) (offset : Int) (data : List Nat) :
    Mmio × Except PyErr Unit :=
  let off := m._adjust_offset offset
  match m._validate_offset off (data.length : Int) with
  | .error e => (m, .error e)
  | .ok _ =>
    if data.any (fun b => 256 ≤ b) then (m, .error .byteOutOfRange)
    else m.writeAt off data

/-- `close()`: a no-op when `self.mapping is None`, otherwise release the
mapping (`mmap.close()`, modelled as always succeeding: the transient views
the accessors create do not outlive their statement) and set
`self.mapping = None` (the source also sets a `_fd` attribute to `None`;
no other method reads it). -/
def Mmio.close (m : Mmio) : Mmio :=
  match m.mapping with
  | none => m
  | some _ => { m with mapping := none }

/-- Property `base`: returns `self._physaddr`. -/
def Mmio.base (m : Mmio) : Int :=
  m._physaddr

/-- Property `size`: returns `self._size`. -/
def Mmio.size (m : Mmio) : Int :=
  m._size

/-- Property `pointer`: `ctypes.c_uint8.from_buffer(self.mapping, 0)` cast to
a pointer.  The pointer value is a process address outside the model; what is
modelled is whether the access succeeds (it raises `TypeError` on a closed
mapping, exactly like the other accesses). -/
def Mmio.pointer (m : Mmio) : Except PyErr Unit :=
  match m.mapping with
  | none => .error .noBuffer
  | some buf =>
    match fromBufferBytes buf 0 1 with
    | .error e => .error e
    | .ok _ => .ok ()

/-- The four integer attributes of a region, the metadata `_open` computes
(everything but the mapping). -/
def metaOf (m : Mmio) : Int × Int × Int × Int :=
  (m._physaddr, m._size, m._aligned_physaddr, m._aligned_size)

/-- The spec's metadata invariant, relative to the page size used at
construction: `aligned_size = requested_size + offset_adjustment ≥
requested_size` and `0 ≤ offset_adjustment < page_size`. -/
def MmioInv (m : Mmio) (pagesize : Int) : Prop :=
  m._aligned_size = m._size + (m._physaddr - m._aligned_physaddr) ∧
  m._size ≤ m._aligned_size ∧
  0 ≤ m.offset_adjustment ∧ m.offset_adjustment < pagesize

/-! ## Decidability of result comparison -/

instance {ε α : Type} [DecidableEq ε] [DecidableEq α] :
    DecidableEq (Except ε α) := fun a b =>
  match a, b with
  | .error e1, .error e2 =>
    if h : e1 = e2 then isTrue (by rw [h]) else isFalse (by simp [h])
  | .ok a1, .ok a2 =>
    if h : a1 = a2 then isTrue (by rw [h]) else isFalse (by simp [h])
  | .error _, .ok _ => isFalse (fun hc => Except.noConfusion hc)
  | .ok _, .error _ => isFalse (fun hc => Except.noConfusion hc)

/-! ## Byte-string lemmas -/

@[simp] theorem bytesLE_length (v n : Nat) : (bytesLE v n).length = n := by
  induction n generalizing v with
  | zero => rfl
  | succ n ih => simp [bytesLE, ih]

theorem valLE_bytesLE (v n : Nat) (h : v < 256 ^ n) :
    valLE (bytesLE v n) = v := by
  induction n generalizing v with
  | zero => simp [pow_zero, Nat.lt_one_iff] at h; simp [h, bytesLE, valLE]
  | succ n ih =>
    have hdiv : v / 256 < 256 ^ n := by
      rw [Nat.div_lt_iff_lt_mul (by norm_num)]
      calc v < 256 ^ (n + 1) := h
        _ = 256 ^ n * 256 := by ring
    simp [bytesLE, valLE, ih _ hdiv, Nat.mod_add_div]

@[simp] theorem storeBytes_length (data : List Nat) (buf : List Nat) (i : Nat) :
    (storeBytes buf i data).length = buf.length := by
  induction data generalizing buf i with
  | nil => rfl
  | cons b rest ih => simp [storeBytes, ih]

theorem getD_set_self (l : List Nat) (i b : Nat) (h : i < l.length) :
    (l.set i b).getD i 0 = b := by
  simp [List.getD_eq_getElem?_getD, List.getElem?_set, h]

theorem getD_set_of_ne (l : List Nat) (i j b : Nat) (h : i ≠ j) :
    (l.set i b).getD j 0 = l.getD j 0 := by
  simp [List.getD_eq_getElem?_getD, List.getElem?_set, h]

theorem getD_storeBytes_of_lt (data : List Nat) (buf : List Nat) (i k : Nat)
    (h : k < i) : (storeBytes buf i data).getD k 0 = buf.getD k 0 := by
  induction data generalizing buf i with
  | nil => rfl
  | cons b rest ih =>
    rw [storeBytes, ih _ _ (Nat.lt_succ_of_lt h),
      getD_set_of_ne _ _ _ _ (Nat.ne_of_gt h)]

theorem getD_storeBytes_get (data : List Nat) (buf : List Nat) (i j : Nat)
    (hj : j < data.length) (hle : i + data.length ≤ buf.length) :
    (storeBytes buf i data).getD (i + j) 0 = data.getD j 0 := by
  induction data generalizing buf i j with
  | nil => simp at hj
  | cons b rest ih =>
    rw [storeBytes]
    cases j with
    | zero =>
      rw [getD_storeBytes_of_lt _ _ _ _ (by omega : i + 0 < i + 1)]
      exact getD_set_self buf i b (by simp at hle; omega)
    | succ j =>
      have : i + (j + 1) = (i + 1) + j := by omega
      rw [this, ih _ _ _ (by simpa using hj) (by simp at hle ⊢; omega)]
      rfl

theorem range_map_getD (l : List Nat) :
    (List.range l.length).map (fun j => l.getD j 0) = l := by
  apply List.ext_getElem
  · simp
  · intro i h1 h2
    simp [List.getD_eq_getElem?_getD, List.getElem?_eq_getElem h2]

/-- Reading back a view of exactly the bytes a store wrote returns them. -/
theorem fromBufferBytes_storeBytes (buf data : List Nat) (off : Int)
    (h0 : 0 ≤ off) (hlen : off + data.length ≤ (buf.length : Int)) :
    fromBufferBytes (storeBytes buf off.toNat data) off data.length
      = .ok data := by
  have hnat : off.toNat + data.length ≤ buf.length := by omega
  rw [fromBufferBytes, if_neg (by omega),
    if_neg (by simp only [storeBytes_length]; omega)]
  congr 1
  calc (List.range data.length).map
        (fun j => (storeBytes buf off.toNat data).getD (off.toNat + j) 0)
      = (List.range data.length).map (fun j => data.getD j 0) := by
        apply List.map_congr_left
        intro j hj
        exact getD_storeBytes_get data buf off.toNat j
          (List.mem_range.mp hj) hnat
    _ = data := range_map_getD data

/-! ## State and error shape of the operations -/

theorem readAt_fst (m : Mmio) (off : Int) (nbytes : Nat) :
    (m.readAt off nbytes).1 = m := by
  rcases hm : m.mapping with _ | buf
  · simp [Mmio.readAt, hm]
  · rcases hb : fromBufferBytes buf off nbytes with e | bs <;>
      simp [Mmio.readAt, hm, hb]

theorem readFixed_fst (m : Mmio) (offset : Int) (nbytes : Nat) :
    (m.readFixed offset nbytes).1 = m := by
  rcases hv : m._validate_offset (m._adjust_offset offset) (nbytes : Int)
    with e | u
  · simp [Mmio.readFixed, hv]
  · simp [Mmio.readFixed, hv, readAt_fst]

theorem read_fst (m : Mmio) (offset length : Int) :
    (m.read offset length).1 = m := by
  rcases hv : m._validate_offset (m._adjust_offset offset) length with e | u
  · simp [Mmio.read, hv]
  · by_cases hl : length < 0
    · simp [Mmio.read, hv, hl]
    · rcases hm : m.mapping with _ | buf
      · simp [Mmio.read, hv, hl, hm]
      · rcases hb : fromBufferBytes buf (m._adjust_offset offset) length.toNat
          with e | bs <;>
          simp [Mmio.read, hv, hl, hm, hb]

theorem writeAt_fst_metaOf (m : Mmio) (off : Int) (data : List Nat) :
    metaOf (m.writeAt off data).1 = metaOf m := by
  rcases hm : m.mapping with _ | buf
  · simp [Mmio.writeAt, hm]
  · rcases hb : fromBufferBytes buf off data.length with e | bs <;>
      simp [Mmio.writeAt, metaOf, hm, hb]

theorem writeAt_fst_isSome (m : Mmio) (off : Int) (data : List Nat) :
    (m.writeAt off data).1.mapping.isSome = m.mapping.isSome := by
  rcases hm : m.mapping with _ | buf
  · simp [Mmio.writeAt, hm]
  · rcases hb : fromBufferBytes buf off data.length with e | bs <;>
      simp [Mmio.writeAt, hm, hb]

theorem writeFixed_fst_metaOf (m : Mmio) (offset value : Int) (nbytes : Nat)
    (maxval : Int) :
    metaOf (m.writeFixed offset value nbytes maxval).1 = metaOf m := by
  by_cases hval : value < 0 ∨ maxval < value
  · simp [Mmio.writeFixed, hval]
  · rcases hv : m._validate_offset (m._adjust_offset offset) (nbytes : Int)
      with e | u <;>
      simp [Mmio.writeFixed, hval, hv, writeAt_fst_metaOf]

theorem writeFixed_fst_isSome (m : Mmio) (offset value : Int) (nbytes : Nat)
    (maxval : Int) :
    (m.writeFixed offset value nbytes maxval).1.mapping.isSome
      = m.mapping.isSome := by
  by_cases hval : value < 0 ∨ maxval < value
  · simp [Mmio.writeFixed, hval]
  · rcases hv : m._validate_offset (m._adjust_offset offset) (nbytes : Int)
      with e | u <;>
      simp [Mmio.writeFixed, hval, hv, writeAt_fst_isSome]

theorem write_fst_metaOf (m : Mmio) (offset : Int) (data : List Nat) :
    metaOf (m.write offset data).1 = metaOf m := by
  rcases hv : m._validate_offset (m._adjust_offset offset) (data.length : Int)
    with e | u
  · simp [Mmio.write, hv]
  · by_cases hd : data.any (fun b => 256 ≤ b) <;>
      simp [Mmio.write, hv, hd, writeAt_fst_metaOf]

theorem write_fst_isSome (m : Mmio) (offset : Int) (data : List Nat) :
    (m.write offset data).1.mapping.isSome = m.mapping.isSome := by
  rcases hv : m._validate_offset (m._adjust_offset offset) (data.length : Int)
    with e | u
  · simp [Mmio.write, hv]
  · by_cases hd : data.any (fun b => 256 ≤ b) <;>
      simp [Mmio.write, hv, hd, writeAt_fst_isSome]

/-- The errors `from_buffer` can produce. -/
theorem fromBufferBytes_error_cases (buf : List Nat) (off : Int) (n : Nat)
    (e : PyErr) (h : fromBufferBytes buf off n = .error e) :
    e = .negativeOffset ∨ e = .bufferTooSmall := by
  rw [fromBufferBytes] at h
  by_cases h0 : off < 0
  · simp [h0] at h; exact Or.inl h.symm
  · by_cases h1 : (buf.length : Int) < off + n
    · simp [h0, h1] at h; exact Or.inr h.symm
    · simp [h0, h1] at h

/-- The errors the post-validation part of a fixed-width read can produce. -/
theorem readAt_snd_error_cases (m : Mmio) (off : Int) (nbytes : Nat)
    (e : PyErr) (h : (m.readAt off nbytes).2 = .error e) :
    e = .noBuffer ∨ e = .negativeOffset ∨ e = .bufferTooSmall := by
  rcases hm : m.mapping with _ | buf
  · simp [Mmio.readAt, hm] at h
    exact Or.inl h.symm
  · rcases hb : fromBufferBytes buf off nbytes with e2 | bs
    · simp [Mmio.readAt, hm, hb] at h
      exact Or.inr (h ▸ fromBufferBytes_error_cases buf off nbytes e2 hb)
    · simp [Mmio.readAt, hm, hb] at h

/-- The errors the post-validation part of a write can produce. -/
theorem writeAt_snd_error_cases (m : Mmio) (off : Int) (data : List Nat)
    (e : PyErr) (h : (m.writeAt off data).2 = .error e) :
    e = .noBuffer ∨ e = .negativeOffset ∨ e = .bufferTooSmall := by
  rcases hm : m.mapping with _ | buf
  · simp [Mmio.writeAt, hm] at h
    exact Or.inl h.symm
  · rcases hb : fromBufferBytes buf off data.length with e2 | bs
    · simp [Mmio.writeAt, hm, hb] at h
      exact Or.inr (h ▸ fromBufferBytes_error_cases buf off data.length e2 hb)
    · simp [Mmio.writeAt, hm, hb] at h

/-! ## Successful accesses -/

/-- `from_buffer` succeeds on an in-range view and denotes its bytes. -/
theorem fromBufferBytes_isOk (buf : List Nat) (off : Int) (n : Nat)
    (h0 : 0 ≤ off) (hn : off + n ≤ (buf.length : Int)) :
    fromBufferBytes buf off n
      = .ok ((List.range n).map (fun j => buf.getD (off.toNat + j) 0)) := by
  rw [fromBufferBytes, if_neg (by omega), if_neg (by omega)]

/-- A fixed-width read whose adjusted view lies inside the mapping returns
the little-endian value of the bytes there. -/
theorem readFixed_ok (m : Mmio) (buf : List Nat) (offset : Int) (n : Nat)
    (hmap : m.mapping = some buf)
    (hoff : 0 ≤ m._adjust_offset offset)
    (hbound : m._adjust_offset offset + (n : Int) ≤ m._aligned_size)
    (hlen : (buf.length : Int) = m._aligned_size) :
    (m.readFixed offset n).2
      = .ok (valLE ((List.range n).map
          (fun j => buf.getD ((m._adjust_offset offset).toNat + j) 0)) : Int)
    := by
  have hvd : m._validate_offset (m._adjust_offset offset) (n : Int)
      = .ok () := by
    rw [Mmio._validate_offset, if_neg (by omega)]
  have hfb := fromBufferBytes_isOk buf (m._adjust_offset offset) n hoff
    (by omega)
  simp [Mmio.readFixed, hvd, Mmio.readAt, hmap, hfb]

/-- Core round trip: a fixed-width write of an in-range value at an in-range
adjusted offset, then the same-width read at the same offset, returns the
value. -/
theorem writeFixed_readFixed_roundtrip (m : Mmio) (buf : List Nat)
    (offset v : Int) (n : Nat) (maxval : Int)
    (hmap : m.mapping = some buf)
    (hlen : (buf.length : Int) = m._aligned_size)
    (hoff : 0 ≤ m._adjust_offset offset)
    (hbound : m._adjust_offset offset + (n : Int) ≤ m._aligned_size)
    (hv0 : 0 ≤ v) (hvmax : v ≤ maxval) (hv : v < (256 : Int) ^ n) :
    ((m.writeFixed offset v n maxval).1.readFixed offset n).2 = .ok v := by
  have hval : ¬ (v < 0 ∨ maxval < v) := by omega
  have hvd : m._validate_offset (m._adjust_offset offset) (n : Int)
      = .ok () := by
    rw [Mmio._validate_offset, if_neg (by omega)]
  have hfb : fromBufferBytes buf (m._adjust_offset offset) n
      = .ok ((List.range n).map
          (fun j => buf.getD ((m._adjust_offset offset).toNat + j) 0)) :=
    fromBufferBytes_isOk buf _ n hoff (by omega)
  have hwState : (m.writeFixed offset v n maxval).1
      = { m with mapping := some (storeBytes buf
            (m._adjust_offset offset).toNat (bytesLE v.toNat n)) } := by
    simp [Mmio.writeFixed, hval, hvd, Mmio.writeAt, hmap, hfb]
  have hrb : fromBufferBytes
      (storeBytes buf (m._adjust_offset offset).toNat (bytesLE v.toNat n))
      (m._adjust_offset offset) n = .ok (bytesLE v.toNat n) := by
    have h1 := fromBufferBytes_storeBytes buf (bytesLE v.toNat n)
      (m._adjust_offset offset) hoff (by rw [bytesLE_length]; omega)
    rwa [bytesLE_length] at h1
  have hvn : v.toNat < 256 ^ n := by
    have h2 : (v.toNat : Int) < ((256 ^ n : Nat) : Int) := by
      rw [Int.toNat_of_nonneg hv0]; exact_mod_cast hv
    exact_mod_cast h2
  have hmapeq : (List.range n).map
      (fun j => (storeBytes buf (m._adjust_offset offset).toNat
        (bytesLE v.toNat n)).getD ((m._adjust_offset offset).toNat + j) 0)
      = bytesLE v.toNat n := by
    have h1 := fromBufferBytes_isOk
      (storeBytes buf (m._adjust_offset offset).toNat (bytesLE v.toNat n))
      (m._adjust_offset offset) n hoff
      (by rw [storeBytes_length]; omega)
    rw [hrb] at h1
    exact (Except.ok.inj h1).symm
  rw [hwState]
  have hread := readFixed_ok
    { m with mapping := some (storeBytes buf
        (m._adjust_offset offset).toNat (bytesLE v.toNat n)) }
    (storeBytes buf (m._adjust_offset offset).toNat (bytesLE v.toNat n))
    offset n rfl hoff hbound (by rw [storeBytes_length]; exact hlen)
  rw [hread]
  show Except.ok (valLE ((List.range n).map
      (fun j => (storeBytes buf (m._adjust_offset offset).toNat
        (bytesLE v.toNat n)).getD ((m._adjust_offset offset).toNat + j) 0))
      : Int) = Except.ok v
  rw [hmapeq, valLE_bytesLE v.toNat n hvn, Int.toNat_of_nonneg hv0]

/-! ## Which error each stage raises -/

theorem validate_snd_error (m : Mmio) (off len : Int) (e : PyErr)
    (h : m._validate_offset off len = .error e) : e = .offsetOutOfBounds := by
  rw [Mmio._validate_offset] at h
  by_cases hb : m._aligned_size < off + len
  · simp [hb] at h; exact h.symm
  · simp [hb] at h

/-- A fixed-width read fails with the bounds error exactly when the adjusted
offset plus the width exceeds the aligned size. -/
theorem readFixed_oob_iff (m : Mmio) (offset : Int) (n : Nat) :
    (m.readFixed offset n).2 = .error .offsetOutOfBounds ↔
      m._aligned_size < m._adjust_offset offset + (n : Int) := by
  constructor
  · intro hc
    by_contra hb
    have hvd : m._validate_offset (m._adjust_offset offset) (n : Int)
        = .ok () := by
      rw [Mmio._validate_offset, if_neg hb]
    rw [show m.readFixed offset n = m.readAt (m._adjust_offset offset) n from
      by simp [Mmio.readFixed, hvd]] at hc
    rcases readAt_snd_error_cases _ _ _ _ hc with h | h | h <;> simp at h
  · intro hb
    have hvd : m._validate_offset (m._adjust_offset offset) (n : Int)
        = .error .offsetOutOfBounds := by
      rw [Mmio._validate_offset, if_pos hb]
    simp [Mmio.readFixed, hvd]

/-- `read` fails with the bounds error exactly when the adjusted offset plus
the requested length exceeds the aligned size. -/
theorem read_oob_iff (m : Mmio) (offset length : Int) :
    (m.read offset length).2 = .error .offsetOutOfBounds ↔
      m._aligned_size < m._adjust_offset offset + length := by
  constructor
  · intro hc
    by_contra hb
    have hvd : m._validate_offset (m._adjust_offset offset) length
        = .ok () := by
      rw [Mmio._validate_offset, if_neg hb]
    by_cases hl : length < 0
    · simp [Mmio.read, hvd, hl] at hc
    · rcases hm : m.mapping with _ | buf
      · simp [Mmio.read, hvd, hl, hm] at hc
      · rcases hfb : fromBufferBytes buf (m._adjust_offset offset)
            length.toNat with e | bs
        · simp [Mmio.read, hvd, hl, hm, hfb] at hc
          rcases fromBufferBytes_error_cases _ _ _ _ hfb with h | h <;>
            rw [h] at hc <;> simp at hc
        · simp [Mmio.read, hvd, hl, hm, hfb] at hc
  · intro hb
    have hvd : m._validate_offset (m._adjust_offset offset) length
        = .error .offsetOutOfBounds := by
      rw [Mmio._validate_offset, if_pos hb]
    simp [Mmio.read, hvd]

/-- A fixed-width write of an in-range value fails with the bounds error
exactly when the adjusted offset plus the width exceeds the aligned size. -/
theorem writeFixed_oob_iff (m : Mmio) (offset value : Int) (n : Nat)
    (maxval : Int) (ha : 0 ≤ value) (hvmax : value ≤ maxval) :
    (m.writeFixed offset value n maxval).2 = .error .offsetOutOfBounds ↔
      m._aligned_size < m._adjust_offset offset + (n : Int) := by
  have hval : ¬ (value < 0 ∨ maxval < value) := by omega
  constructor
  · intro hc
    by_contra hb
    have hvd : m._validate_offset (m._adjust_offset offset) (n : Int)
        = .ok () := by
      rw [Mmio._validate_offset, if_neg hb]
    rw [show m.writeFixed offset value n maxval
        = m.writeAt (m._adjust_offset offset) (bytesLE value.toNat n) from
      by simp [Mmio.writeFixed, hval, hvd]] at hc
    rcases writeAt_snd_error_cases _ _ _ _ hc with h | h | h <;> simp at h
  · intro hb
    have hvd : m._validate_offset (m._adjust_offset offset) (n : Int)
        = .error .offsetOutOfBounds := by
      rw [Mmio._validate_offset, if_pos hb]
    simp [Mmio.writeFixed, hval, hvd]

/-- A fixed-width write never reports the bounds error unless the bound is
exceeded, whatever the value. -/
theorem writeFixed_oob_imp (m : Mmio) (offset value : Int) (n : Nat)
    (maxval : Int)
    (hc : (m.writeFixed offset value n maxval).2
      = .error .offsetOutOfBounds) :
    m._aligned_size < m._adjust_offset offset + (n : Int) := by
  by_cases hval : value < 0 ∨ maxval < value
  · simp [Mmio.writeFixed, hval] at hc
  · by_contra hb
    have hvd : m._validate_offset (m._adjust_offset offset) (n : Int)
        = .ok () := by
      rw [Mmio._validate_offset, if_neg hb]
    rw [show m.writeFixed offset value n maxval
        = m.writeAt (m._adjust_offset offset) (bytesLE value.toNat n) from
      by simp [Mmio.writeFixed, hval, hvd]] at hc
    rcases writeAt_snd_error_cases _ _ _ _ hc with h | h | h <;> simp at h

/-- `write` fails with the bounds error exactly when the adjusted offset plus
the data length exceeds the aligned size. -/
theorem write_oob_iff (m : Mmio) (offset : Int) (data : List Nat) :
    (m.write offset data).2 = .error .offsetOutOfBounds ↔
      m._aligned_size < m._adjust_offset offset + (data.length : Int) := by
  constructor
  · intro hc
    by_contra hb
    have hvd : m._validate_offset (m._adjust_offset offset)
        (data.length : Int) = .ok () := by
      rw [Mmio._validate_offset, if_neg hb]
    by_cases hd : data.any (fun b => 256 ≤ b)
    · simp [Mmio.write, hvd, hd] at hc
    · rw [show m.write offset data
          = m.writeAt (m._adjust_offset offset) data from
        by simp [Mmio.write, hvd, hd]] at hc
      rcases writeAt_snd_error_cases _ _ _ _ hc with h | h | h <;> simp at h
  · intro hb
    have hvd : m._validate_offset (m._adjust_offset offset)
        (data.length : Int) = .error .offsetOutOfBounds := by
      rw [Mmio._validate_offset, if_pos hb]
    simp [Mmio.write, hvd]

/-- A fixed-width write fails with the value error exactly when the value is
outside `[0, maxval]`, and then the state is untouched. -/
theorem writeFixed_value_iff (m : Mmio) (offset value : Int) (n : Nat)
    (maxval : Int) :
    ((m.writeFixed offset value n maxval).2 = .error .valueOutOfBounds ↔
      (value < 0 ∨ maxval < value)) ∧
    ((value < 0 ∨ maxval < value) →
      (m.writeFixed offset value n maxval).1 = m) := by
  by_cases hval : value < 0 ∨ maxval < value
  · exact ⟨by simp [Mmio.writeFixed, hval],
      fun _ => by simp [Mmio.writeFixed, hval]⟩
  · refine ⟨⟨fun hc => ?_, fun hcv => absurd hcv hval⟩,
      fun hcv => absurd hcv hval⟩
    exfalso
    rcases hvd : m._validate_offset (m._adjust_offset offset) (n : Int)
      with e | u
    · have he := validate_snd_error m _ _ e hvd
      simp [Mmio.writeFixed, hval, hvd, he] at hc
    · rw [show m.writeFixed offset value n maxval
          = m.writeAt (m._adjust_offset offset) (bytesLE value.toNat n) from
        by simp [Mmio.writeFixed, hval, hvd]] at hc
      rcases writeAt_snd_error_cases _ _ _ _ hc with h | h | h <;> simp at h

/-! ## Claim theorems -/

/-- C1: for every width `w ∈ {8,16,32}`, every open region, every value `v`
in `[0, 2^w - 1]`, and every integer offset whose adjusted offset together
with its `w/8`-byte access window stays within the mapping (non-negative
start, end at most `aligned_size`), `writeW(offset, v)` followed by
`readW(offset)` returns `v`. -/
theorem writeW_readW_roundtrip (m : Mmio) (buf : List Nat) (offset v : Int)
    (hmap : m.mapping = some buf)
    (hlen : (buf.length : Int) = m._aligned_size)
    (hoff : 0 ≤ m._adjust_offset offset) :
    (0 ≤ v → v ≤ 0xff → m._adjust_offset offset + 1 ≤ m._aligned_size →
      ((m.write8 offset v).1.read8 offset).2 = .ok v) ∧
    (0 ≤ v → v ≤ 0xffff → m._adjust_offset offset + 2 ≤ m._aligned_size →
      ((m.write16 offset v).1.read16 offset).2 = .ok v) ∧
    (0 ≤ v → v ≤ 0xffffffff → m._adjust_offset offset + 4 ≤ m._aligned_size →
      ((m.write32 offset v).1.read32 offset).2 = .ok v) := by
  refine ⟨fun h0 h1 h2 => ?_, fun h0 h1 h2 => ?_, fun h0 h1 h2 => ?_⟩
  · exact writeFixed_readFixed_roundtrip m buf offset v 1 0xff hmap hlen
      hoff h2 h0 h1 (by norm_num; omega)
  · exact writeFixed_readFixed_roundtrip m buf offset v 2 0xffff hmap hlen
      hoff h2 h0 h1 (by norm_num; omega)
  · exact writeFixed_readFixed_roundtrip m buf offset v 4 0xffffffff hmap
      hlen hoff h2 h0 h1 (by norm_num; omega)

theorem writeW_readW_roundtrip_witness :
    (Mmio._open 0x1000 8 0x1000 (fun _ => 0)).mapping
        = some [0, 0, 0, 0, 0, 0, 0, 0] ∧
    (((Mmio._open 0x1000 8 0x1000 (fun _ => 0)).write32 0 0xDEADBEEF).1.read32
        0).2 = .ok 0xDEADBEEF :=
  ⟨by decide,
   (writeW_readW_roundtrip (Mmio._open 0x1000 8 0x1000 (fun _ => 0))
     [0, 0, 0, 0, 0, 0, 0, 0] 0 0xDEADBEEF (by decide) (by decide)
     (by decide)).2.2 (by decide) (by decide) (by decide)⟩

/-- C2 counterexample: `write8(10, 256)` on a region with `aligned_size = 0`
exceeds the bound (`10 + 1 > 0`) yet does not fail with the bounds error —
the value check precedes the bounds check, so it fails with the value error
instead.  This refutes the claim's "fails with OutOfBoundsError exactly
when the adjusted offset plus the width exceeds aligned_size". -/
theorem bounds_error_iff_counterexample :
    (Mmio._open 0 0 0x1000 (fun _ => 0))._aligned_size
        < (Mmio._open 0 0 0x1000 (fun _ => 0))._adjust_offset 10 + 1 ∧
    ((Mmio._open 0 0 0x1000 (fun _ => 0)).write8 10 256).2
        = .error .valueOutOfBounds ∧
    ((Mmio._open 0 0 0x1000 (fun _ => 0)).write8 10 256).2
        ≠ .error .offsetOutOfBounds :=
  ⟨by decide, by decide, by decide⟩

/-- C2 (amended): each read accessor, and `write` for byte sequences, fails
with `OutOfBoundsError` exactly when the adjusted offset plus the access
width in bytes exceeds `aligned_size`; each fixed-width write satisfies the
same equivalence provided its value is within the accessor's range (the
value check precedes bounds validation), and in any case reports the bounds
error only when the bound is exceeded. -/
theorem bounds_error_iff (m : Mmio) (offset length v8 v16 v32 : Int)
    (data : List Nat)
    (h8a : 0 ≤ v8) (h8b : v8 ≤ 0xff)
    (h16a : 0 ≤ v16) (h16b : v16 ≤ 0xffff)
    (h32a : 0 ≤ v32) (h32b : v32 ≤ 0xffffffff) :
    ((m.read8 offset).2 = .error .offsetOutOfBounds ↔
      m._aligned_size < m._adjust_offset offset + 1) ∧
    ((m.read16 offset).2 = .error .offsetOutOfBounds ↔
      m._aligned_size < m._adjust_offset offset + 2) ∧
    ((m.read32 offset).2 = .error .offsetOutOfBounds ↔
      m._aligned_size < m._adjust_offset offset + 4) ∧
    ((m.read offset length).2 = .error .offsetOutOfBounds ↔
      m._aligned_size < m._adjust_offset offset + length) ∧
    ((m.write8 offset v8).2 = .error .offsetOutOfBounds ↔
      m._aligned_size < m._adjust_offset offset + 1) ∧
    ((m.write16 offset v16).2 = .error .offsetOutOfBounds ↔
      m._aligned_size < m._adjust_offset offset + 2) ∧
    ((m.write32 offset v32).2 = .error .offsetOutOfBounds ↔
      m._aligned_size < m._adjust_offset offset + 4) ∧
    ((m.write offset data).2 = .error .offsetOutOfBounds ↔
      m._aligned_size < m._adjust_offset offset + (data.length : Int)) ∧
    (∀ value : Int, (m.write8 offset value).2 = .error .offsetOutOfBounds →
      m._aligned_size < m._adjust_offset offset + 1) ∧
    (∀ value : Int, (m.write16 offset value).2 = .error .offsetOutOfBounds →
      m._aligned_size < m._adjust_offset offset + 2) ∧
    (∀ value : Int, (m.write32 offset value).2 = .error .offsetOutOfBounds →
      m._aligned_size < m._adjust_offset offset + 4) :=
  ⟨readFixed_oob_iff m offset 1, readFixed_oob_iff m offset 2,
   readFixed_oob_iff m offset 4, read_oob_iff m offset length,
   writeFixed_oob_iff m offset v8 1 0xff h8a h8b,
   writeFixed_oob_iff m offset v16 2 0xffff h16a h16b,
   writeFixed_oob_iff m offset v32 4 0xffffffff h32a h32b,
   write_oob_iff m offset data,
   fun value => writeFixed_oob_imp m offset value 1 0xff,
   fun value => writeFixed_oob_imp m offset value 2 0xffff,
   fun value => writeFixed_oob_imp m offset value 4 0xffffffff⟩

theorem bounds_error_iff_witness :
    ((Mmio._open 0x1000 8 0x1000 (fun _ => 0)).read32 8).2
        = .error .offsetOutOfBounds ∧
    ((Mmio._open 0x1000 8 0x1000 (fun _ => 0)).write8 3 17).2
        ≠ .error .offsetOutOfBounds :=
  ⟨((bounds_error_iff (Mmio._open 0x1000 8 0x1000 (fun _ => 0)) 8 0 0 0 0 []
      (by decide) (by decide) (by decide) (by decide) (by decide)
      (by decide)).2.2.1).mpr (by decide),
   fun hc =>
     absurd (((bounds_error_iff (Mmio._open 0x1000 8 0x1000 (fun _ => 0)) 3
       17 0 0 0 [] (by decide) (by decide) (by decide) (by decide)
       (by decide) (by decide)).2.2.2.2.1).mp hc) (by decide)⟩

/-- C3: for every non-negative `physical_base` and positive `page_size`,
construction sets `aligned_base = physical_base - (physical_base mod
page_size)`, which is a multiple of `page_size` and at most
`physical_base`. -/
theorem open_aligned_base (physaddr size pagesize : Int) (devmem : Int → Nat)
    (hp : 0 ≤ physaddr) (hg : 0 < pagesize) :
    (Mmio._open physaddr size pagesize devmem)._aligned_physaddr
        = physaddr - physaddr % pagesize ∧
    (Mmio._open physaddr size pagesize devmem)._aligned_physaddr % pagesize
        = 0 ∧
    (Mmio._open physaddr size pagesize devmem)._aligned_physaddr
        ≤ physaddr := by
  refine ⟨rfl, ?_, ?_⟩
  · show (physaddr - physaddr % pagesize) % pagesize = 0
    rw [Int.sub_emod, Int.emod_emod_of_dvd _ dvd_rfl, sub_self,
      Int.zero_emod]
  · have := Int.emod_nonneg physaddr (ne_of_gt hg)
    show physaddr - physaddr % pagesize ≤ physaddr
    omega

theorem open_aligned_base_witness :
    (0 : Int) ≤ 0x1234 ∧ (0 : Int) < 0x1000 ∧
    ((Mmio._open 0x1234 8 0x1000 (fun _ => 0))._aligned_physaddr
        = 0x1234 - 0x1234 % 0x1000 ∧
     (Mmio._open 0x1234 8 0x1000 (fun _ => 0))._aligned_physaddr % 0x1000
        = 0 ∧
     (Mmio._open 0x1234 8 0x1000 (fun _ => 0))._aligned_physaddr ≤ 0x1234) :=
  ⟨by decide, by decide,
   open_aligned_base 0x1234 8 0x1000 (fun _ => 0) (by decide) (by decide)⟩

/-- C4: for every non-negative `physical_base`, non-negative
`requested_size`, and positive `page_size`, construction establishes
`aligned_size = requested_size + offset_adjustment ≥ requested_size` and
`0 ≤ offset_adjustment < page_size`, and every read/write operation
preserves this invariant (they never touch the metadata fields). -/
theorem open_invariants (physaddr size pagesize : Int) (devmem : Int → Nat)
    (hp : 0 ≤ physaddr) (hs : 0 ≤ size) (hg : 0 < pagesize) :
    MmioInv (Mmio._open physaddr size pagesize devmem) pagesize ∧
    (∀ (m : Mmio) (g offset value length : Int) (data : List Nat),
      MmioInv m g →
        MmioInv (m.read8 offset).1 g ∧ MmioInv (m.read16 offset).1 g ∧
        MmioInv (m.read32 offset).1 g ∧
        MmioInv (m.read offset length).1 g ∧
        MmioInv (m.write8 offset value).1 g ∧
        MmioInv (m.write16 offset value).1 g ∧
        MmioInv (m.write32 offset value).1 g ∧
        MmioInv (m.write offset data).1 g) := by
  constructor
  · refine ⟨rfl, ?_, ?_, ?_⟩
    · have := Int.emod_nonneg physaddr (ne_of_gt hg)
      show size ≤ size + (physaddr - (physaddr - physaddr % pagesize))
      omega
    · have := Int.emod_nonneg physaddr (ne_of_gt hg)
      show (0 : Int) ≤ physaddr - (physaddr - physaddr % pagesize)
      omega
    · have := Int.emod_lt_of_pos physaddr hg
      show physaddr - (physaddr - physaddr % pagesize) < pagesize
      omega
  · intro m g offset value length data hInv
    have hpres : ∀ m' : Mmio, metaOf m' = metaOf m → MmioInv m' g := by
      intro m' hEq
      simp only [metaOf, Prod.mk.injEq] at hEq
      obtain ⟨e1, e2, e3, e4⟩ := hEq
      obtain ⟨i1, i2, i3, i4⟩ := hInv
      rw [Mmio.offset_adjustment] at i3 i4
      refine ⟨?_, ?_, ?_, ?_⟩
      · rw [e1, e2, e3, e4]; exact i1
      · rw [e2, e4]; exact i2
      · rw [Mmio.offset_adjustment, e1, e3]; exact i3
      · rw [Mmio.offset_adjustment, e1, e3]; exact i4
    exact ⟨hpres _ (congrArg metaOf (readFixed_fst m offset 1)),
      hpres _ (congrArg metaOf (readFixed_fst m offset 2)),
      hpres _ (congrArg metaOf (readFixed_fst m offset 4)),
      hpres _ (congrArg metaOf (read_fst m offset length)),
      hpres _ (writeFixed_fst_metaOf m offset value 1 0xff),
      hpres _ (writeFixed_fst_metaOf m offset value 2 0xffff),
      hpres _ (writeFixed_fst_metaOf m offset value 4 0xffffffff),
      hpres _ (write_fst_metaOf m offset data)⟩

theorem open_invariants_witness :
    MmioInv (Mmio._open 0x1234 8 0x1000 (fun _ => 0)) 0x1000 ∧
    MmioInv ((Mmio._open 0x1234 8 0x1000 (fun _ => 0)).write8 0 7).1
      0x1000 := by
  have h := open_invariants 0x1234 8 0x1000 (fun _ => 0) (by decide)
    (by decide) (by decide)
  exact ⟨h.1, (h.2 (Mmio._open 0x1234 8 0x1000 (fun _ => 0)) 0x1000 0 7 0 []
    h.1).2.2.2.2.1⟩

/-- C5: for every width `w ∈ {8,16,32}` and every integer value,
`writeW(offset, value)` fails with `RangeError` exactly when `value < 0` or
`value > 2^w - 1` (in particular at `value = 2^w`), and such a failure
leaves the region — including the mapped memory contents — unchanged. -/
theorem write_value_range (m : Mmio) (offset value : Int) :
    ((m.write8 offset value).2 = .error .valueOutOfBounds ↔
      (value < 0 ∨ 0xff < value)) ∧
    ((m.write16 offset value).2 = .error .valueOutOfBounds ↔
      (value < 0 ∨ 0xffff < value)) ∧
    ((m.write32 offset value).2 = .error .valueOutOfBounds ↔
      (value < 0 ∨ 0xffffffff < value)) ∧
    ((value < 0 ∨ 0xff < value) → (m.write8 offset value).1 = m) ∧
    ((value < 0 ∨ 0xffff < value) → (m.write16 offset value).1 = m) ∧
    ((value < 0 ∨ 0xffffffff < value) → (m.write32 offset value).1 = m) ∧
    (m.write8 offset 0x100).2 = .error .valueOutOfBounds ∧
    (m.write16 offset 0x10000).2 = .error .valueOutOfBounds ∧
    (m.write32 offset 0x100000000).2 = .error .valueOutOfBounds :=
  ⟨(writeFixed_value_iff m offset value 1 0xff).1,
   (writeFixed_value_iff m offset value 2 0xffff).1,
   (writeFixed_value_iff m offset value 4 0xffffffff).1,
   (writeFixed_value_iff m offset value 1 0xff).2,
   (writeFixed_value_iff m offset value 2 0xffff).2,
   (writeFixed_value_iff m offset value 4 0xffffffff).2,
   (writeFixed_value_iff m offset 0x100 1 0xff).1.mpr (by norm_num),
   (writeFixed_value_iff m offset 0x10000 2 0xffff).1.mpr (by norm_num),
   (writeFixed_value_iff m offset 0x100000000 4 0xffffffff).1.mpr
     (by norm_num)⟩

theorem write_value_range_witness :
    (((Mmio._open 0 8 0x1000 (fun _ => 0)).write8 3 256).2
        = .error .valueOutOfBounds) ∧
    (((Mmio._open 0 8 0x1000 (fun _ => 0)).write8 3 256).1
        = Mmio._open 0 8 0x1000 (fun _ => 0)) :=
  ⟨(write_value_range (Mmio._open 0 8 0x1000 (fun _ => 0)) 3 256).1.mpr
     (by decide),
   (write_value_range (Mmio._open 0 8 0x1000 (fun _ => 0)) 3
     256).2.2.2.1 (by decide)⟩

/-- C6: `close()` releases the mapping when one is held and is idempotent:
the region holds no mapping after `close()`, a second `close()` returns the
same state, and so does any later repetition (and `close` is a total
function of the state — it cannot fail). -/
theorem close_idempotent (m : Mmio) :
    m.close.close = m.close ∧ m.close.mapping = none ∧
    (∀ n : Nat, Mmio.close^[n + 1] m = m.close) := by
  have hnone : m.close.mapping = none := by
    rcases hm : m.mapping with _ | buf <;> simp [Mmio.close, hm]
  have hstep : m.close.close = m.close := by
    have hdef : m.close.close = match m.close.mapping with
      | none => m.close
      | some _ => { m.close with mapping := none } := rfl
    rw [hdef, hnone]
  refine ⟨hstep, hnone, ?_⟩
  intro n
  induction n with
  | zero => simp
  | succ k ih => rw [Function.iterate_succ_apply', ih, hstep]

/-- C7 counterexample: with `physical_base = 0x1000`, `requested_size = 8`
and `page_size = 0x1000` the base is already page-aligned, so construction
does NOT produce the claimed `aligned_base = 0`, `offset_adjustment =
0x1000`, `aligned_size = 0x1008`. -/
theorem mmio_scenario_counterexample :
    ¬ ((Mmio._open 0x1000 8 0x1000 (fun _ => 0))._aligned_physaddr = 0 ∧
       (Mmio._open 0x1000 8 0x1000 (fun _ => 0)).offset_adjustment
          = 0x1000 ∧
       (Mmio._open 0x1000 8 0x1000 (fun _ => 0))._aligned_size = 0x1008) :=
  by decide

/-- C7 (amended): with `physical_base = 0x1000`, `requested_size = 8`,
`page_size = 0x1000`, construction yields `aligned_base = 0x1000`,
`offset_adjustment = 0`, and `aligned_size = 8`; then `write32(0,
0xDEADBEEF)` followed by `read32(0)` returns `0xDEADBEEF`, `write32(4,
0x1234)` followed by `read32(4)` returns `0x1234`, and `read32(8)` fails
with `OutOfBoundsError` since `8 + 4 > 8`. -/
theorem mmio_scenario :
    (Mmio._open 0x1000 8 0x1000 (fun _ => 0))._aligned_physaddr = 0x1000 ∧
    (Mmio._open 0x1000 8 0x1000 (fun _ => 0)).offset_adjustment = 0 ∧
    (Mmio._open 0x1000 8 0x1000 (fun _ => 0))._aligned_size = 8 ∧
    (((Mmio._open 0x1000 8 0x1000 (fun _ => 0)).write32 0 0xDEADBEEF).1.read32
        0).2 = .ok 0xDEADBEEF ∧
    (((Mmio._open 0x1000 8 0x1000 (fun _ => 0)).write32 4 0x1234).1.read32
        4).2 = .ok 0x1234 ∧
    ((Mmio._open 0x1000 8 0x1000 (fun _ => 0)).read32 8).2
        = .error .offsetOutOfBounds := by
  decide

/-- C8: every read and write operation, whether it succeeds or fails,
leaves `physical_base`, `requested_size`, `aligned_base`, `aligned_size`
and the presence of the mapping handle unchanged (reads leave the whole
state unchanged); `base` always returns the requested `physical_base`
unadjusted and `size` always returns `requested_size`. -/
theorem rw_ops_frame (m : Mmio) (offset value length : Int)
    (data : List Nat) (p s g : Int) (d : Int → Nat) :
    (m.read8 offset).1 = m ∧ (m.read16 offset).1 = m ∧
    (m.read32 offset).1 = m ∧ (m.read offset length).1 = m ∧
    metaOf (m.write8 offset value).1 = metaOf m ∧
    metaOf (m.write16 offset value).1 = metaOf m ∧
    metaOf (m.write32 offset value).1 = metaOf m ∧
    metaOf (m.write offset data).1 = metaOf m ∧
    (m.write8 offset value).1.mapping.isSome = m.mapping.isSome ∧
    (m.write16 offset value).1.mapping.isSome = m.mapping.isSome ∧
    (m.write32 offset value).1.mapping.isSome = m.mapping.isSome ∧
    (m.write offset data).1.mapping.isSome = m.mapping.isSome ∧
    m.base = m._physaddr ∧ m.size = m._size ∧
    (Mmio._open p s g d).base = p ∧ (Mmio._open p s g d).size = s :=
  ⟨readFixed_fst m offset 1, readFixed_fst m offset 2,
   readFixed_fst m offset 4, read_fst m offset length,
   writeFixed_fst_metaOf m offset value 1 0xff,
   writeFixed_fst_metaOf m offset value 2 0xffff,
   writeFixed_fst_metaOf m offset value 4 0xffffffff,
   write_fst_metaOf m offset data,
   writeFixed_fst_isSome m offset value 1 0xff,
   writeFixed_fst_isSome m offset value 2 0xffff,
   writeFixed_fst_isSome m offset value 4 0xffffffff,
   write_fst_isSome m offset data, rfl, rfl, rfl, rfl⟩

/-- C9: the bounds validation checks only the upper bound: for every integer
offset — negative ones included — whose adjusted offset plus the access
length is at most `aligned_size`, `_validate_offset` succeeds, the accessor
proceeds past validation to the mapping access at the (possibly negative)
adjusted offset, and no `OutOfBoundsError` is raised; nothing establishes
that the adjusted offset is non-negative. -/
theorem validate_no_lower_bound (m : Mmio) (offset : Int) (nbytes : Nat)
    (h : m._adjust_offset offset + (nbytes : Int) ≤ m._aligned_size) :
    m._validate_offset (m._adjust_offset offset) (nbytes : Int) = .ok () ∧
    m.readFixed offset nbytes = m.readAt (m._adjust_offset offset) nbytes ∧
    (m.readFixed offset nbytes).2 ≠ .error .offsetOutOfBounds := by
  have hvd : m._validate_offset (m._adjust_offset offset) (nbytes : Int)
      = .ok () := by
    rw [Mmio._validate_offset, if_neg (by omega)]
  have hrd : m.readFixed offset nbytes
      = m.readAt (m._adjust_offset offset) nbytes := by
    simp [Mmio.readFixed, hvd]
  refine ⟨hvd, hrd, ?_⟩
  rw [hrd]
  intro hc
  rcases readAt_snd_error_cases m (m._adjust_offset offset) nbytes _ hc
    with h1 | h1 | h1 <;> simp at h1

theorem validate_no_lower_bound_witness :
    (Mmio._open 0 8 0x1000 (fun _ => 0))._adjust_offset (-3) < 0 ∧
    (Mmio._open 0 8 0x1000 (fun _ => 0))._adjust_offset (-3)
        + ((1 : Nat) : Int)
      ≤ (Mmio._open 0 8 0x1000 (fun _ => 0))._aligned_size ∧
    (Mmio._open 0 8 0x1000 (fun _ => 0))._validate_offset
      ((Mmio._open 0 8 0x1000 (fun _ => 0))._adjust_offset (-3))
      ((1 : Nat) : Int) = .ok () :=
  ⟨by decide, by decide,
   (validate_no_lower_bound (Mmio._open 0 8 0x1000 (fun _ => 0)) (-3) 1
     (by decide)).1⟩

/-- C10: after `close()`, the `base` and `size` accessors still succeed and
return `physical_base` and `requested_size`: `close` clears only the
mapping handle and leaves all metadata fields intact, while `pointer`,
which depends on the mapping, fails after `close`. -/
theorem close_keeps_metadata (m : Mmio) :
    m.close.base = m._physaddr ∧ m.close.size = m._size ∧
    metaOf m.close = metaOf m ∧ m.close.mapping = none ∧
    m.close.pointer = .error .noBuffer := by
  rcases hm : m.mapping with _ | buf <;>
    simp [Mmio.close, hm, metaOf, Mmio.base, Mmio.size, Mmio.pointer]
